import Mathlib

/-!
Shallow embedding of `thread/thread.go` from the stenographer repository:
the per-thread blockfile tracker (discovery of new blockfiles, disk-space
driven eviction, query fan-out/fan-in, and the debug positions endpoint).

Filesystem and external-package effects are passed in explicitly:
  * `openOk name`  — whether `blockfile.NewBlockFile` succeeds for `name`;
  * `rmPkt name` / `rmIdx name` — whether `os.Remove` succeeds on the
    packet / index artifact of `name`;
  * `dir : Option (List DirEnt)` — the result of `ioutil.ReadDir` on the
    index directory (`none` models a read error);
  * `dfs : List (Option Nat)` — the successive results of
    `base.PathDiskFreePercentage` observed by the eviction loop
    (`none` models a measurement error); the real loop is unbounded, the
    list is the finite prefix of measurements it consumes before exiting.
Logging and handle lifecycle are recorded as an explicit event trace.
-/

namespace Steno

/-- A directory entry as returned by `ioutil.ReadDir`: a file name plus
whether the entry is a directory. -/
structure DirEnt where
  name : String
  isDir : Bool
deriving DecidableEq

/-- Observable events of one `SyncFiles` cycle (log lines, artifact
removals, handle closes, tracked-map deletions), in program order. -/
inductive Event where
  | measured (df : Nat) : Event
  | measureError : Event
  | stuck : Event
  | removedPacket (name : String) : Event
  | removedIndex (name : String) : Event
  | removeError (name : String) : Event
  | handleClosed (name : String) : Event
  | untracked (name : String) : Event
  | untrackError (name : String) : Event
deriving DecidableEq

/-- Mutable state of a `Thread` relevant to the claims: the keys of the
`files` map (tracked blockfile base names) and `fileLastSeen`. -/
structure ThreadState where
  files : List String
  fileLastSeen : Nat
deriving DecidableEq

/-- Lexicographic "less or equal" on character lists; on UTF-8 data this is
exactly the byte-wise `<=` that Go's `sort.Strings` uses (UTF-8 encoding
preserves code-point order). -/
def charListLe : List Char → List Char → Bool
  | [], _ => true
  | _ :: _, [] => false
  | x :: xs, y :: ys =>
    if x < y then true
    else if y < x then false
    else charListLe xs ys

/-- String comparison of `sort.Strings`, as a Bool. -/
def strLe (a b : String) : Bool :=
  charListLe a.data b.data

/-- String comparison of `sort.Strings`, as a Prop. -/
def strLeP (a b : String) : Prop :=
  strLe a b = true

instance : DecidableRel strLeP := fun a b =>
  inferInstanceAs (Decidable (strLe a b = true))

/-- `Thread.getSortedFiles`: the tracked names in ascending lexicographic
order (`sort.Strings`; modelled by insertion sort, which agrees with any
correct sort of a linear order). -/
def getSortedFiles (files : List String) : List String :=
  files.insertionSort strLeP

/-- One step of the loop body of `Thread.listPacketFilesOnDisk`: entries
that are directories or whose name starts with `'.'` are skipped, the rest
are translated by `indexfile.BlockfilePathFromIndexPath` (passed in as
`derive`). `ReadDir` never yields an empty name, so `head?` matches Go's
`Name()[0]`. -/
def listLoop (derive : String → String) : List DirEnt → List String
  | [] => []
  | e :: rest =>
    if e.isDir || e.name.data.head? == some '.' then listLoop derive rest
    else derive e.name :: listLoop derive rest

/-- `Thread.listPacketFilesOnDisk`: on a `ReadDir` error the function logs
and returns `nil` (no error reaches the caller); otherwise it filters and
translates the entries. -/
def listPacketFilesOnDisk (derive : String → String) :
    Option (List DirEnt) → List String
  | none => []
  | some entries => listLoop derive entries

/-- `Thread.trackNewFile`: open the blockfile; on success insert the name
into the tracked map, on failure return the error (`none`). -/
def trackNewFile (openOk : String → Bool) (files : List String)
    (filename : String) : Option (List String) :=
  if openOk filename then some (files ++ [filename]) else none

/-- Intermediate state of the `syncFilesWithDisk` loop: tracked files,
`fileLastSeen`, and the names whose open failed (each logged and skipped). -/
structure DiscoveryState where
  files : List String
  fileLastSeen : Nat
  errors : List String
deriving DecidableEq

/-- The loop body of `Thread.syncFilesWithDisk` over the candidate list:
already-tracked names are skipped; a new name is opened via `trackNewFile`,
on success `fileLastSeen` is set to `now`, on failure the error is logged
and the loop continues with the next candidate. -/
def syncLoop (openOk : String → Bool) (now : Nat) :
    List String → DiscoveryState → DiscoveryState
  | [], st => st
  | c :: rest, st =>
    if st.files.contains c then syncLoop openOk now rest st
    else
      match trackNewFile openOk st.files c with
      | some files' => syncLoop openOk now rest ⟨files', now, st.errors⟩
      | none => syncLoop openOk now rest ⟨st.files, st.fileLastSeen, st.errors ++ [c]⟩

/-- `Thread.syncFilesWithDisk`: list the on-disk candidates and run the
tracking loop over them. -/
def syncFilesWithDisk (openOk : String → Bool) (derive : String → String)
    (now : Nat) (dir : Option (List DirEnt)) (st : ThreadState) : DiscoveryState :=
  syncLoop openOk now (listPacketFilesOnDisk derive dir) ⟨st.files, st.fileLastSeen, []⟩

/-- `Thread.untrackFile`: a name absent from the tracked map is an error
(nothing is closed); otherwise the handle is closed and the map entry
deleted, in that order. -/
def untrackFile (files : List String) (filename : String) :
    Option (List String) × List Event :=
  if files.contains filename then
    (some (files.erase filename), [Event.handleClosed filename, Event.untracked filename])
  else (none, [Event.untrackError filename])

/-- Result of `Thread.deleteOldestThreadFile`: the tracked files afterward,
the events it produced, and whether it returned an error. -/
structure DelResult where
  files : List String
  events : List Event
  failed : Bool
deriving DecidableEq

/-- `Thread.deleteOldestThreadFile`: take the first name of the sorted
tracked list, remove the packet artifact then the index artifact (each
`os.Remove` may fail, aborting with an error), then untrack. The `[]` case
is unreachable: the caller guarantees at least one tracked file (the Go
code would panic on index 0). -/
def deleteOldestThreadFile (rmPkt rmIdx : String → Bool) (files : List String) :
    DelResult :=
  match getSortedFiles files with
  | [] => ⟨files, [], true⟩
  | oldest :: _ =>
    if !rmPkt oldest then ⟨files, [Event.removeError oldest], true⟩
    else if !rmIdx oldest then
      ⟨files, [Event.removedPacket oldest, Event.removeError oldest], true⟩
    else
      match untrackFile files oldest with
      | (some files', evs) =>
        ⟨files', Event.removedPacket oldest :: Event.removedIndex oldest :: evs, false⟩
      | (none, evs) =>
        ⟨files, Event.removedPacket oldest :: Event.removedIndex oldest :: evs, true⟩

/-- `Thread.cleanUpOnLowDiskSpace`: loop forever measuring free disk space;
return on a measurement error or once free space exceeds the threshold;
with no tracked files log a stuck message and keep looping; otherwise
delete the oldest tracked file, returning if the deletion errored. The
recursion consumes the finite list of observed measurements. -/
def cleanUpOnLowDiskSpace (rmPkt rmIdx : String → Bool) (threshold : Nat) :
    List (Option Nat) → List String → List String × List Event
  | [], files => (files, [])
  | none :: _, files => (files, [Event.measureError])
  | some df :: rest, files =>
    if threshold < df then (files, [Event.measured df])
    else if files.isEmpty then
      let r := cleanUpOnLowDiskSpace rmPkt rmIdx threshold rest files
      (r.1, Event.measured df :: Event.stuck :: r.2)
    else
      let d := deleteOldestThreadFile rmPkt rmIdx files
      if d.failed then (d.files, Event.measured df :: d.events)
      else
        let r := cleanUpOnLowDiskSpace rmPkt rmIdx threshold rest d.files
        (r.1, Event.measured df :: (d.events ++ r.2))

/-- Outcome of one `Thread.SyncFiles` call. -/
structure SyncOutcome where
  state : ThreadState
  errors : List String
  events : List Event
deriving DecidableEq

/-- `Thread.SyncFiles`: under the exclusive lock, run discovery
(`syncFilesWithDisk`) and then eviction (`cleanUpOnLowDiskSpace`). -/
def SyncFiles (openOk rmPkt rmIdx : String → Bool) (derive : String → String)
    (now threshold : Nat) (dir : Option (List DirEnt)) (dfs : List (Option Nat))
    (st : ThreadState) : SyncOutcome :=
  let d := syncFilesWithDisk openOk derive now dir st
  let e := cleanUpOnLowDiskSpace rmPkt rmIdx threshold dfs d.files
  ⟨⟨e.1, d.fileLastSeen⟩, d.errors, e.2⟩

/-- Modelled from the spec: `base.ConcatPacketChans` is not under `src/`.
Per §4.2 (Merged Packet Stream) it concatenates an ordered sequence of
producer streams into one consumer stream preserving producer order, so on
fully drained streams it denotes list concatenation in input order. -/
def concatPacketChans {α : Type} (inputs : List (List α)) : List α :=
  inputs.flatten

/-- `Thread.Lookup`, observed at the drained output stream: iterate the
tracked files in sorted order, run the per-file query (`perFile`, the
external `BlockFile.Lookup`), and feed each resulting stream in that order
into `concatPacketChans`. Each packet is tagged with its file of origin. -/
def lookup {α : Type} (perFile : String → List α) (files : List String) :
    List (String × α) :=
  concatPacketChans ((getSortedFiles files).map (fun f => (perFile f).map (fun p => (f, p))))

/-- Result of the external `BlockFile.Positions` call as consumed by the
positions debug handler: either the all-positions sentinel or a list of
byte offsets. -/
inductive PositionsResult where
  | allPositions : PositionsResult
  | positions (ps : List Nat) : PositionsResult

/-- Body written by the positions debug handler after `POSITIONS:`: the
literal `ALL`, or one hex string per position. -/
inductive PositionsOut where
  | all : PositionsOut
  | offsets (hexes : List String) : PositionsOut
deriving DecidableEq

/-- `binary.BigEndian.PutUint32 buf uint32(pos)`: the four big-endian bytes
of `pos` truncated to 32 bits. -/
def putUint32BE (pos : Nat) : List Nat :=
  let v := pos % 4294967296
  [v / 16777216 % 256, v / 65536 % 256, v / 256 % 256, v % 256]

/-- Lowercase hex digit for a nibble, as produced by `encoding/hex`. -/
def hexDigitChar (n : Nat) : Char :=
  if n < 10 then Char.ofNat (48 + n) else Char.ofNat (87 + n)

/-- One byte as two lowercase hex characters. -/
def hexEncodeByte (b : Nat) : List Char :=
  [hexDigitChar (b / 16), hexDigitChar (b % 16)]

/-- `hex.EncodeToString` on a byte slice. -/
def hexEncodeToString (bs : List Nat) : String :=
  ((bs.map hexEncodeByte).flatten).asString

/-- Value of one hex character (`0-9`, `a-f`, `A-F`), as `hex.DecodeString`
reads it. -/
def hexDigitVal (c : Char) : Option Nat :=
  if 48 ≤ c.toNat ∧ c.toNat ≤ 57 then some (c.toNat - 48)
  else if 97 ≤ c.toNat ∧ c.toNat ≤ 102 then some (c.toNat - 87)
  else if 65 ≤ c.toNat ∧ c.toNat ≤ 70 then some (c.toNat - 55)
  else none

/-- `hex.DecodeString`: pairs of hex characters to bytes; odd length or a
bad character is an error. -/
def hexDecodeBytes : List Char → Option (List Nat)
  | [] => some []
  | c₁ :: c₂ :: rest =>
    match hexDigitVal c₁, hexDigitVal c₂, hexDecodeBytes rest with
    | some h, some l, some bs => some ((16 * h + l) :: bs)
    | _, _, _ => none
  | [_] => none

/-- Read a big-endian byte sequence back as a natural number. -/
def beBytesToNat (bs : List Nat) : Nat :=
  bs.foldl (fun acc b => acc * 256 + b) 0

/-- Decode a hex string to the natural number its big-endian bytes denote. -/
def hexDecodeNat (s : String) : Option Nat :=
  (hexDecodeBytes s.data).map beBytesToNat

/-- The positions handler's response body (`thread.go` lines 365-374): the
sentinel `ALL` when `IsAllPositions`, otherwise the hex encoding of the
4-byte big-endian truncation of each position. -/
def positionsResponse : PositionsResult → PositionsOut
  | PositionsResult.allPositions => PositionsOut.all
  | PositionsResult.positions ps =>
    PositionsOut.offsets (ps.map (fun p => hexEncodeToString (putUint32BE p)))

/-- Names deleted from the tracked map, in trace order. -/
def deletedNames (evs : List Event) : List String :=
  evs.filterMap (fun e => match e with | Event.untracked n => some n | _ => none)

/-- Length of the leading run of successful measurements at or below the
threshold (eviction iterations that reach the deletion/stuck branch). -/
def lowStreak (threshold : Nat) : List (Option Nat) → Nat
  | some df :: rest => if threshold < df then 0 else lowStreak threshold rest + 1
  | _ => 0

/-- Trace of the eviction loop run with zero tracked files: each low
measurement logs the stuck condition and the loop re-measures; it exits
only at a measurement error or a measurement above the threshold. -/
def emptyTrace (threshold : Nat) : List (Option Nat) → List Event
  | [] => []
  | none :: _ => [Event.measureError]
  | some df :: rest =>
    if threshold < df then [Event.measured df]
    else Event.measured df :: Event.stuck :: emptyTrace threshold rest

/-- The events strictly after the first stuck report. -/
def afterFirstStuck (evs : List Event) : List Event :=
  (evs.dropWhile (fun e => !(e == Event.stuck))).drop 1

/-! ### Order facts about the `sort.Strings` comparison -/

theorem charListLe_refl : ∀ a, charListLe a a = true
  | [] => rfl
  | x :: xs => by simp [charListLe, lt_irrefl, charListLe_refl xs]

theorem charListLe_total : ∀ a b, charListLe a b = true ∨ charListLe b a = true
  | [], _ => Or.inl rfl
  | _ :: _, [] => Or.inr rfl
  | x :: xs, y :: ys => by
    rcases lt_trichotomy x y with hxy | hxy | hxy
    · left; simp [charListLe, hxy]
    · subst hxy
      simp only [charListLe, lt_irrefl, if_false]
      exact charListLe_total xs ys
    · right; simp [charListLe, hxy]

theorem charListLe_trans : ∀ a b c, charListLe a b = true → charListLe b c = true →
    charListLe a c = true
  | [], _, _, _, _ => rfl
  | _ :: _, [], _, h₁, _ => by simp [charListLe] at h₁
  | _ :: _, _ :: _, [], _, h₂ => by simp [charListLe] at h₂
  | x :: xs, y :: ys, z :: zs, h₁, h₂ => by
    simp only [charListLe] at h₁ h₂ ⊢
    rcases lt_trichotomy x y with hxy | hxy | hxy
    · rcases lt_trichotomy y z with hyz | hyz | hyz
      · simp [lt_trans hxy hyz]
      · subst hyz; simp [hxy]
      · simp [asymm hyz, hyz] at h₂
    · subst hxy
      rcases lt_trichotomy x z with hyz | hyz | hyz
      · simp [hyz]
      · subst hyz
        simp only [lt_irrefl, if_false] at h₁ h₂ ⊢
        exact charListLe_trans _ _ _ h₁ h₂
      · simp [asymm hyz, hyz] at h₂
    · simp [asymm hxy, hxy] at h₁

theorem charListLe_antisymm : ∀ a b, charListLe a b = true → charListLe b a = true → a = b
  | [], [], _, _ => rfl
  | [], _ :: _, _, h₂ => by simp [charListLe] at h₂
  | _ :: _, [], h₁, _ => by simp [charListLe] at h₁
  | x :: xs, y :: ys, h₁, h₂ => by
    simp only [charListLe] at h₁ h₂
    rcases lt_trichotomy x y with hxy | hxy | hxy
    · simp [asymm hxy, hxy] at h₂
    · subst hxy
      simp only [lt_irrefl, if_false] at h₁ h₂
      rw [charListLe_antisymm _ _ h₁ h₂]
    · simp [asymm hxy, hxy] at h₁

instance : IsRefl String strLeP :=
  ⟨fun a => charListLe_refl a.data⟩

instance : IsTotal String strLeP :=
  ⟨fun a b => charListLe_total a.data b.data⟩

instance : IsTrans String strLeP :=
  ⟨fun a b c => charListLe_trans a.data b.data c.data⟩

instance : IsAntisymm String strLeP :=
  ⟨fun a b h₁ h₂ => by
    cases a with
    | mk da =>
      cases b with
      | mk db => exact congrArg String.mk (charListLe_antisymm da db h₁ h₂)⟩

theorem getSortedFiles_sorted (files : List String) :
    List.Sorted strLeP (getSortedFiles files) :=
  List.sorted_insertionSort strLeP files

theorem getSortedFiles_perm (files : List String) :
    (getSortedFiles files).Perm files :=
  List.perm_insertionSort strLeP files

/-- Erasing the head of the sorted view sorts to the tail of the sorted view. -/
theorem getSortedFiles_erase_head {files : List String} {a : String} {t : List String}
    (h : getSortedFiles files = a :: t) :
    getSortedFiles (files.erase a) = t := by
  have hs : List.Sorted strLeP (a :: t) := h ▸ getSortedFiles_sorted files
  have hp : files.Perm (a :: t) := (getSortedFiles_perm files).symm.trans (h ▸ List.Perm.refl _)
  have hpe : (files.erase a).Perm t := by
    have := hp.erase a
    rwa [List.erase_cons_head] at this
  exact List.eq_of_perm_of_sorted ((getSortedFiles_perm _).trans hpe)
    (getSortedFiles_sorted _) hs.of_cons

/-- A nonempty tracked list has a nonempty sorted view. -/
theorem getSortedFiles_ne_nil {files : List String} (h : files.isEmpty = false) :
    ∃ a t, getSortedFiles files = a :: t := by
  cases hg : getSortedFiles files with
  | nil =>
    have := (getSortedFiles_perm files).length_eq
    rw [hg] at this
    cases files with
    | nil => simp at h
    | cons x xs => simp at this
  | cons a t => exact ⟨a, t, rfl⟩

/-- The head of the sorted view is a tracked name. -/
theorem getSortedFiles_head_mem {files : List String} {a : String} {t : List String}
    (h : getSortedFiles files = a :: t) : a ∈ files := by
  have : a ∈ getSortedFiles files := by rw [h]; exact List.mem_cons_self a t
  exact (getSortedFiles_perm files).mem_iff.mp this

/-! ### Behaviour of the eviction loop -/

@[simp] theorem deletedNames_nil : deletedNames [] = [] := rfl

@[simp] theorem deletedNames_measured (df : Nat) (l : List Event) :
    deletedNames (Event.measured df :: l) = deletedNames l := rfl

@[simp] theorem deletedNames_measureError (l : List Event) :
    deletedNames (Event.measureError :: l) = deletedNames l := rfl

@[simp] theorem deletedNames_stuck (l : List Event) :
    deletedNames (Event.stuck :: l) = deletedNames l := rfl

@[simp] theorem deletedNames_removedPacket (n : String) (l : List Event) :
    deletedNames (Event.removedPacket n :: l) = deletedNames l := rfl

@[simp] theorem deletedNames_removedIndex (n : String) (l : List Event) :
    deletedNames (Event.removedIndex n :: l) = deletedNames l := rfl

@[simp] theorem deletedNames_removeError (n : String) (l : List Event) :
    deletedNames (Event.removeError n :: l) = deletedNames l := rfl

@[simp] theorem deletedNames_handleClosed (n : String) (l : List Event) :
    deletedNames (Event.handleClosed n :: l) = deletedNames l := rfl

@[simp] theorem deletedNames_untrackError (n : String) (l : List Event) :
    deletedNames (Event.untrackError n :: l) = deletedNames l := rfl

@[simp] theorem deletedNames_untracked (n : String) (l : List Event) :
    deletedNames (Event.untracked n :: l) = n :: deletedNames l := rfl

@[simp] theorem deletedNames_append (l₁ l₂ : List Event) :
    deletedNames (l₁ ++ l₂) = deletedNames l₁ ++ deletedNames l₂ :=
  List.filterMap_append l₁ l₂ _

/-- Every run of the eviction loop deletes an initial segment of the sorted
tracked list (the lexicographically smallest names, smallest first), with
at most one deletion per leading at-or-below-threshold measurement. -/
theorem cleanUp_deletions (rmPkt rmIdx : String → Bool) (threshold : Nat) :
    ∀ (dfs : List (Option Nat)) (files : List String),
      ∃ k, k ≤ lowStreak threshold dfs ∧
        deletedNames (cleanUpOnLowDiskSpace rmPkt rmIdx threshold dfs files).2 =
          (getSortedFiles files).take k := by
  intro dfs
  induction dfs with
  | nil =>
    intro files
    exact ⟨0, Nat.zero_le _, by simp [cleanUpOnLowDiskSpace]⟩
  | cons hd rest ih =>
    intro files
    match hd with
    | none => exact ⟨0, Nat.zero_le _, by simp [cleanUpOnLowDiskSpace]⟩
    | some df =>
      by_cases hdf : threshold < df
      · exact ⟨0, Nat.zero_le _, by simp [cleanUpOnLowDiskSpace, hdf]⟩
      · by_cases hemp : files.isEmpty
        · have hfe : files = [] := by
            cases files with
            | nil => rfl
            | cons x xs => simp at hemp
          subst hfe
          obtain ⟨k, _, hdel⟩ := ih ([] : List String)
          refine ⟨0, Nat.zero_le _, ?_⟩
          have hnil : getSortedFiles ([] : List String) = [] := rfl
          rw [hnil, List.take_nil] at hdel
          simp [cleanUpOnLowDiskSpace, hdf, hdel, hnil]
        · obtain ⟨a, t, hsort⟩ := getSortedFiles_ne_nil (Bool.not_eq_true _ ▸ hemp)
          have hcont : files.contains a = true := by
            simpa using getSortedFiles_head_mem hsort
          cases hpkt : rmPkt a with
          | false =>
            refine ⟨0, Nat.zero_le _, ?_⟩
            simp [cleanUpOnLowDiskSpace, hdf, hemp, deleteOldestThreadFile, hsort, hpkt]
          | true =>
            cases hidx : rmIdx a with
            | false =>
              refine ⟨0, Nat.zero_le _, ?_⟩
              simp [cleanUpOnLowDiskSpace, hdf, hemp, deleteOldestThreadFile, hsort, hpkt, hidx]
            | true =>
              obtain ⟨k, hk, hdel⟩ := ih (files.erase a)
              have ham : a ∈ files := getSortedFiles_head_mem hsort
              refine ⟨k + 1, ?_, ?_⟩
              · simp only [lowStreak, hdf, if_false]
                exact Nat.succ_le_succ hk
              · rw [getSortedFiles_erase_head hsort] at hdel
                simp [cleanUpOnLowDiskSpace, hdf, hemp, deleteOldestThreadFile, hsort, hpkt,
                  hidx, untrackFile, hcont, ham, hdel, List.take_succ_cons]

/-- Run of the eviction loop with zero tracked files: it equals `emptyTrace`
(one stuck report per low measurement, loop keeps re-measuring). -/
theorem cleanUp_empty (rmPkt rmIdx : String → Bool) (threshold : Nat) :
    ∀ dfs, cleanUpOnLowDiskSpace rmPkt rmIdx threshold dfs [] =
      ([], emptyTrace threshold dfs) := by
  intro dfs
  induction dfs with
  | nil => rfl
  | cons hd rest ih =>
    match hd with
    | none => rfl
    | some df =>
      by_cases hdf : threshold < df
      · simp [cleanUpOnLowDiskSpace, emptyTrace, hdf]
      · simp [cleanUpOnLowDiskSpace, emptyTrace, hdf, ih]

/-- The zero-tracked-files loop never deletes anything. -/
theorem emptyTrace_no_deletions (threshold : Nat) :
    ∀ dfs, deletedNames (emptyTrace threshold dfs) = [] := by
  intro dfs
  induction dfs with
  | nil => rfl
  | cons hd rest ih =>
    match hd with
    | none => rfl
    | some df =>
      by_cases hdf : threshold < df
      · simp [emptyTrace, hdf]
      · simp [emptyTrace, hdf, ih]

/-! ### Behaviour of the discovery loop -/

/-- If every candidate is already tracked, the discovery loop is the
identity on the discovery state. -/
theorem syncLoop_skip_all (openOk : String → Bool) (now : Nat) :
    ∀ (cands : List String) (st : DiscoveryState),
      (∀ c ∈ cands, st.files.contains c = true) →
      syncLoop openOk now cands st = st := by
  intro cands
  induction cands with
  | nil => intro st _; rfl
  | cons c rest ih =>
    intro st h
    have hc : st.files.contains c = true := h c (List.mem_cons_self _ _)
    simp only [syncLoop, hc, if_true]
    exact ih st (fun x hx => h x (List.mem_cons_of_mem _ hx))

/-- Full characterization of the discovery loop on duplicate-free candidate
lists: new names that open are appended in candidate order, `fileLastSeen`
is bumped exactly when something new was tracked, and the names that failed
to open are the logged errors, in order. -/
theorem syncLoop_spec (openOk : String → Bool) (now : Nat) :
    ∀ (cands : List String) (files : List String) (seen : Nat) (errs : List String),
      cands.Nodup →
      syncLoop openOk now cands ⟨files, seen, errs⟩ =
        ⟨files ++ cands.filter (fun c => !files.contains c && openOk c),
         if (cands.filter (fun c => !files.contains c && openOk c)).isEmpty then seen else now,
         errs ++ cands.filter (fun c => !files.contains c && !openOk c)⟩ := by
  intro cands
  induction cands with
  | nil => intro files seen errs _; simp [syncLoop]
  | cons c rest ih =>
    intro files seen errs h
    have hcn : c ∉ rest := (List.nodup_cons.mp h).1
    have hnd : rest.Nodup := (List.nodup_cons.mp h).2
    by_cases hc : files.contains c = true
    · have hmem : c ∈ files := by simpa using hc
      simp only [syncLoop, hc, if_true]
      rw [ih files seen errs hnd]
      have h1 : (c :: rest).filter (fun x => !files.contains x && openOk x) =
          rest.filter (fun x => !files.contains x && openOk x) := by
        simp [List.filter_cons, hmem]
      have h2 : (c :: rest).filter (fun x => !files.contains x && !openOk x) =
          rest.filter (fun x => !files.contains x && !openOk x) := by
        simp [List.filter_cons, hmem]
      rw [h1, h2]
    · have hcf : files.contains c = false := Bool.not_eq_true _ ▸ hc
      have hnmem : c ∉ files := by simpa using hcf
      have hcongr : ∀ (p : String → Bool), ∀ x ∈ rest,
          (!(files ++ [c]).contains x && p x) = (!files.contains x && p x) := by
        intro p x hx
        have hxc : x ≠ c := fun e => hcn (e ▸ hx)
        have : (files ++ [c]).contains x = files.contains x := by simp [hxc]
        rw [this]
      cases hok : openOk c with
      | true =>
        simp only [syncLoop, hcf, if_false, Bool.false_eq_true, trackNewFile, hok, if_true]
        rw [ih (files ++ [c]) now errs hnd]
        have h1 : rest.filter (fun x => !(files ++ [c]).contains x && openOk x) =
            rest.filter (fun x => !files.contains x && openOk x) :=
          List.filter_congr (hcongr openOk)
        have h2 : rest.filter (fun x => !(files ++ [c]).contains x && !openOk x) =
            rest.filter (fun x => !files.contains x && !openOk x) :=
          List.filter_congr (hcongr (fun x => !openOk x))
        rw [h1, h2]
        have h3 : (c :: rest).filter (fun x => !files.contains x && openOk x) =
            c :: rest.filter (fun x => !files.contains x && openOk x) := by
          simp [List.filter_cons, hnmem, hok]
        have h4 : (c :: rest).filter (fun x => !files.contains x && !openOk x) =
            rest.filter (fun x => !files.contains x && !openOk x) := by
          simp [List.filter_cons, hnmem, hok]
        rw [h3, h4, ite_self]
        have h5 : (c :: rest.filter (fun x => !files.contains x && openOk x)).isEmpty = false := rfl
        rw [h5]
        simp
      | false =>
        simp only [syncLoop, hcf, if_false, Bool.false_eq_true, trackNewFile, hok]
        rw [ih files seen (errs ++ [c]) hnd]
        have h3 : (c :: rest).filter (fun x => !files.contains x && openOk x) =
            rest.filter (fun x => !files.contains x && openOk x) := by
          simp [List.filter_cons, hnmem, hok]
        have h4 : (c :: rest).filter (fun x => !files.contains x && !openOk x) =
            c :: rest.filter (fun x => !files.contains x && !openOk x) := by
          simp [List.filter_cons, hnmem, hok]
        rw [h3, h4]
        simp

/-! ### Behaviour of the directory listing -/

/-- The listing loop keeps exactly the non-directory, non-dot entries and
maps them through the index-to-blockfile name translation, in order. -/
theorem listLoop_filter_map (derive : String → String) :
    ∀ entries, listLoop derive entries =
      (entries.filter (fun e => !e.isDir && !(e.name.data.head? == some '.'))).map
        (fun e => derive e.name) := by
  intro entries
  induction entries with
  | nil => rfl
  | cons e rest ih =>
    by_cases hd : (e.isDir || e.name.data.head? == some '.') = true
    · have hkeep : (!e.isDir && !(e.name.data.head? == some '.')) = false := by
        rw [← Bool.not_or, hd]; rfl
      simp only [listLoop, hd, if_true, ih, List.filter_cons, hkeep]
      rfl
    · have hd' : (e.isDir || e.name.data.head? == some '.') = false := by
        simpa using hd
      have hkeep : (!e.isDir && !(e.name.data.head? == some '.')) = true := by
        rw [← Bool.not_or, hd']; rfl
      simp only [listLoop, hd', if_false, ih, List.filter_cons, hkeep, Bool.false_eq_true,
        List.map_cons, if_true, ite_true]

/-! ### Ordering of the merged lookup stream -/

/-- Flattening per-element constant blocks of a sorted list yields a
pairwise-nondecreasing sequence. -/
theorem pairwise_flatten_replicate {l : List String} (h : List.Sorted strLeP l)
    (n : String → Nat) :
    List.Pairwise strLeP ((l.map (fun f => List.replicate (n f) f)).flatten) := by
  induction l with
  | nil => simp
  | cons a t ih =>
    simp only [List.map_cons, List.flatten_cons]
    rw [List.pairwise_append]
    refine ⟨List.pairwise_replicate.mpr (Or.inr (charListLe_refl a.data)), ih h.of_cons, ?_⟩
    intro x hx y hy
    have hxa : x = a := List.eq_of_mem_replicate hx
    obtain ⟨lf, hlf, hylf⟩ := List.mem_flatten.mp hy
    obtain ⟨f, hf, rfl⟩ := List.mem_map.mp hlf
    have hyf : y = f := List.eq_of_mem_replicate hylf
    subst hxa
    subst hyf
    exact (List.sorted_cons.mp h).1 y hf

/-- The file-of-origin of each packet emitted by `lookup`, in emission
order: one block per tracked file, in sorted file order. -/
theorem lookup_origins {α : Type} (perFile : String → List α) (files : List String) :
    (lookup perFile files).map Prod.fst =
      ((getSortedFiles files).map (fun f => List.replicate (perFile f).length f)).flatten := by
  unfold lookup concatPacketChans
  rw [List.map_flatten]
  congr 1
  rw [List.map_map]
  apply List.map_congr_left
  intro f _
  show ((perFile f).map (fun p => (f, p))).map Prod.fst = List.replicate (perFile f).length f
  rw [List.map_map]
  exact List.map_const (perFile f) f

/-! ### Hex encoding of positions -/

theorem hexDigitVal_hexDigitChar {n : Nat} (h : n < 16) :
    hexDigitVal (hexDigitChar n) = some n := by
  have : ∀ m : Fin 16, hexDigitVal (hexDigitChar (m : Nat)) = some (m : Nat) := by decide
  exact this ⟨n, h⟩

theorem hexDecodeBytes_encodeByte {b : Nat} (hb : b < 256) (rest : List Char) :
    hexDecodeBytes (hexEncodeByte b ++ rest) =
      (hexDecodeBytes rest).map (fun bs => b :: bs) := by
  have h1 : b / 16 < 16 := by omega
  have h2 : b % 16 < 16 := by omega
  show hexDecodeBytes (hexDigitChar (b / 16) :: hexDigitChar (b % 16) :: rest) = _
  simp only [hexDecodeBytes, hexDigitVal_hexDigitChar h1, hexDigitVal_hexDigitChar h2]
  cases hexDecodeBytes rest with
  | none => rfl
  | some bs =>
    show some ((16 * (b / 16) + b % 16) :: bs) = some (b :: bs)
    have : 16 * (b / 16) + b % 16 = b := by omega
    rw [this]

/-- Decoding inverts encoding on byte lists. -/
theorem hexDecodeBytes_encode : ∀ (bs : List Nat), (∀ b ∈ bs, b < 256) →
    hexDecodeBytes ((bs.map hexEncodeByte).flatten) = some bs := by
  intro bs
  induction bs with
  | nil => intro _; rfl
  | cons b rest ih =>
    intro h
    simp only [List.map_cons, List.flatten_cons]
    rw [hexDecodeBytes_encodeByte (h b (List.mem_cons_self _ _)),
      ih (fun x hx => h x (List.mem_cons_of_mem _ hx))]
    rfl

/-- The emitted hex string of a position decodes to the position reduced
modulo `2^32` (the `uint32` truncation applied by the handler). -/
theorem hex_roundtrip_mod (p : Nat) :
    hexDecodeNat (hexEncodeToString (putUint32BE p)) = some (p % 4294967296) := by
  have hlt : ∀ b ∈ putUint32BE p, b < 256 := by
    intro b hb
    simp only [putUint32BE, List.mem_cons, List.not_mem_nil, or_false] at hb
    rcases hb with h | h | h | h <;> omega
  unfold hexDecodeNat hexEncodeToString
  rw [show (((putUint32BE p).map hexEncodeByte).flatten).asString.data =
    ((putUint32BE p).map hexEncodeByte).flatten from rfl]
  rw [hexDecodeBytes_encode _ hlt]
  have : beBytesToNat (putUint32BE p) = p % 4294967296 := by
    show (((0 * 256 + p % 4294967296 / 16777216 % 256) * 256 + p % 4294967296 / 65536 % 256) *
        256 + p % 4294967296 / 256 % 256) * 256 + p % 4294967296 % 256 = p % 4294967296
    omega
  show some (beBytesToNat (putUint32BE p)) = some (p % 4294967296)
  rw [this]

/-! ### Claim theorems -/

/-- C2: in every eviction phase, deletions happen only during the leading
run of measurements at or below the threshold (at most one deletion per
such measurement, and the cycle ends at the first measurement above the
threshold), and the deleted names are an initial segment of the sorted
tracked list — each deletion removes the lexicographically smallest
remaining name. In the concrete scenario with tracked set {"A","B","C"},
threshold 10 and measurements [5, 5, 12], exactly "A" then "B" are deleted
and {"C"} remains. -/
theorem claim_eviction_oldest_first_low_only :
    (∀ (rmPkt rmIdx : String → Bool) (threshold : Nat) (dfs : List (Option Nat))
        (files : List String),
      ∃ k, k ≤ lowStreak threshold dfs ∧
        deletedNames (cleanUpOnLowDiskSpace rmPkt rmIdx threshold dfs files).2 =
          (getSortedFiles files).take k) ∧
    cleanUpOnLowDiskSpace (fun _ => true) (fun _ => true) 10
        [some 5, some 5, some 12] ["A", "B", "C"] =
      (["C"], [Event.measured 5, Event.removedPacket "A", Event.removedIndex "A",
        Event.handleClosed "A", Event.untracked "A", Event.measured 5,
        Event.removedPacket "B", Event.removedIndex "B", Event.handleClosed "B",
        Event.untracked "B", Event.measured 12]) :=
  ⟨fun rmPkt rmIdx threshold => cleanUp_deletions rmPkt rmIdx threshold, by decide⟩

/-- C3: the merged lookup stream's file-of-origin sequence is pairwise
non-decreasing in the `sort.Strings` lexicographic order — all packets of
an earlier-sorting file are emitted before any packet of a later-sorting
file. -/
theorem claim_lookup_origin_order {α : Type} (perFile : String → List α)
    (files : List String) :
    List.Pairwise strLeP ((lookup perFile files).map Prod.fst) := by
  rw [lookup_origins]
  exact pairwise_flatten_replicate (getSortedFiles_sorted files) _

/-- C4 counterexample: with zero tracked files, threshold 10 and
measurements [5, 5, 12], the stuck condition is reported, but the eviction
phase does not abort there — a further measurement occurs after the first
stuck report, contradicting the claim that no further measurements happen
in that cycle. -/
theorem claim_stuck_abort_counterexample :
    Event.stuck ∈ (cleanUpOnLowDiskSpace (fun _ => true) (fun _ => true) 10
        [some 5, some 5, some 12] []).2 ∧
    Event.measured 5 ∈ afterFirstStuck ((cleanUpOnLowDiskSpace (fun _ => true) (fun _ => true) 10
        [some 5, some 5, some 12] []).2) := by decide

/-- C4 amended: when the measured free percentage is at or below the
threshold and zero files are tracked, the stuck condition is reported and
no deletion ever happens, but the phase does not abort: it keeps
re-measuring (reporting stuck after every further low measurement) and
exits only on a measurement error or a measurement above the threshold. -/
theorem claim_stuck_reported_loop_continues (rmPkt rmIdx : String → Bool)
    (threshold : Nat) (dfs : List (Option Nat)) :
    cleanUpOnLowDiskSpace rmPkt rmIdx threshold dfs [] = ([], emptyTrace threshold dfs) ∧
    deletedNames (emptyTrace threshold dfs) = [] ∧
    (∀ dfs', emptyTrace threshold (some 0 :: dfs') =
      Event.measured 0 :: Event.stuck :: emptyTrace threshold dfs') :=
  ⟨cleanUp_empty rmPkt rmIdx threshold dfs, emptyTrace_no_deletions threshold dfs,
   fun dfs' => by simp [emptyTrace]⟩

/-- C5 counterexample: with prior tracked set {"Z"} and an empty on-disk
index-artifact set, discovery leaves "Z" tracked, while the claim demands
the tracked set equal the empty candidate set minus failures. -/
theorem claim_tracked_equals_disk_counterexample :
    (syncFilesWithDisk (fun _ => true) (fun n => n) 1 (some []) ⟨["Z"], 0⟩).files = ["Z"] ∧
    listPacketFilesOnDisk (fun n => n) (some []) = [] ∧
    (["Z"] : List String) ≠ [] := by decide

/-- C5 amended: after a discovery cycle the tracked set equals the prior
tracked set plus, in candidate order, the on-disk candidates that were not
already tracked and whose handle opened; names tracked before the cycle are
never removed by discovery, even if absent from disk. -/
theorem claim_tracked_accumulates (openOk : String → Bool) (derive : String → String)
    (now : Nat) (dir : Option (List DirEnt)) (st : ThreadState)
    (h : (listPacketFilesOnDisk derive dir).Nodup) :
    (syncFilesWithDisk openOk derive now dir st).files =
      st.files ++ (listPacketFilesOnDisk derive dir).filter
        (fun c => !st.files.contains c && openOk c) := by
  unfold syncFilesWithDisk
  rw [syncLoop_spec openOk now _ st.files st.fileLastSeen [] h]

theorem claim_tracked_accumulates_witness :
    (listPacketFilesOnDisk (fun n => n) (some [⟨"X", false⟩, ⟨"Y", false⟩])).Nodup ∧
    (syncFilesWithDisk (fun c => c == "X") (fun n => n) 7
      (some [⟨"X", false⟩, ⟨"Y", false⟩]) ⟨[], 0⟩).files = ["X"] :=
  ⟨by decide,
   (claim_tracked_accumulates (fun c => c == "X") (fun n => n) 7
      (some [⟨"X", false⟩, ⟨"Y", false⟩]) ⟨[], 0⟩ (by decide)).trans (by decide)⟩

/-- C6: a SyncFiles call whose on-disk candidates are all already tracked
and whose first free-space measurement is above the threshold leaves the
tracked set and the last-discovery timestamp unchanged, from any starting
state. -/
theorem claim_syncfiles_noop (openOk rmPkt rmIdx : String → Bool)
    (derive : String → String) (now threshold : Nat) (dir : Option (List DirEnt))
    (df : Nat) (rest : List (Option Nat)) (st : ThreadState)
    (hall : ∀ c ∈ listPacketFilesOnDisk derive dir, st.files.contains c = true)
    (hdf : threshold < df) :
    (SyncFiles openOk rmPkt rmIdx derive now threshold dir (some df :: rest) st).state = st := by
  unfold SyncFiles syncFilesWithDisk
  rw [syncLoop_skip_all openOk now _ _ hall]
  simp [cleanUpOnLowDiskSpace, hdf]

theorem claim_syncfiles_noop_witness :
    (∀ c ∈ listPacketFilesOnDisk (fun n => n) (some [⟨"A", false⟩]),
      (["A"] : List String).contains c = true) ∧ (10 : Nat) < 50 ∧
    (SyncFiles (fun _ => true) (fun _ => true) (fun _ => true) (fun n => n) 3 10
      (some [⟨"A", false⟩]) [some 50] ⟨["A"], 2⟩).state = ⟨["A"], 2⟩ :=
  ⟨by decide, by decide,
   claim_syncfiles_noop (fun _ => true) (fun _ => true) (fun _ => true) (fun n => n) 3 10
     (some [⟨"A", false⟩]) 50 [] ⟨["A"], 2⟩ (by decide) (by decide)⟩

/-- C7: during discovery an open failure is logged for that candidate alone
and the remaining candidates are still processed — the reported errors are
exactly the untracked candidates that failed to open, and the tracked set
still gains every untracked candidate that opened. With candidates
{"X","Y"} and "Y" failing, the tracked set ends {"X"} with "Y" the only
error (see the witness). -/
theorem claim_discovery_partial_failure (openOk : String → Bool) (derive : String → String)
    (now : Nat) (dir : Option (List DirEnt)) (st : ThreadState)
    (h : (listPacketFilesOnDisk derive dir).Nodup) :
    (syncFilesWithDisk openOk derive now dir st).errors =
      (listPacketFilesOnDisk derive dir).filter
        (fun c => !st.files.contains c && !openOk c) ∧
    (syncFilesWithDisk openOk derive now dir st).files =
      st.files ++ (listPacketFilesOnDisk derive dir).filter
        (fun c => !st.files.contains c && openOk c) := by
  unfold syncFilesWithDisk
  rw [syncLoop_spec openOk now _ st.files st.fileLastSeen [] h]
  exact ⟨by simp, rfl⟩

theorem claim_discovery_partial_failure_witness :
    (listPacketFilesOnDisk (fun n => n) (some [⟨"X", false⟩, ⟨"Y", false⟩])).Nodup ∧
    (syncFilesWithDisk (fun c => c == "X") (fun n => n) 7
      (some [⟨"X", false⟩, ⟨"Y", false⟩]) ⟨[], 0⟩).errors = ["Y"] ∧
    (syncFilesWithDisk (fun c => c == "X") (fun n => n) 7
      (some [⟨"X", false⟩, ⟨"Y", false⟩]) ⟨[], 0⟩).files = ["X"] :=
  ⟨by decide,
   ((claim_discovery_partial_failure (fun c => c == "X") (fun n => n) 7
      (some [⟨"X", false⟩, ⟨"Y", false⟩]) ⟨[], 0⟩ (by decide)).1).trans (by decide),
   ((claim_discovery_partial_failure (fun c => c == "X") (fun n => n) 7
      (some [⟨"X", false⟩, ⟨"Y", false⟩]) ⟨[], 0⟩ (by decide)).2).trans (by decide)⟩

/-- C8 counterexample: the position 2^32 is emitted as the hex string
"00000000", which decodes to 0, not to the original position — the claim's
round-trip property fails for positions of 32 bits or more. -/
theorem claim_positions_hex_counterexample :
    positionsResponse (PositionsResult.positions [4294967296]) =
      PositionsOut.offsets ["00000000"] ∧
    hexDecodeNat "00000000" = some 0 ∧ (0 : Nat) ≠ 4294967296 := by decide

/-- C8 amended: a successful positions query returns the sentinel when the
predicate matches the whole file, and otherwise one hex-encoded 4-byte
big-endian offset per position; each hex string decodes back to the
original position reduced modulo 2^32 (the handler's uint32 truncation),
hence exactly to the original position whenever it is below 2^32. -/
theorem claim_positions_hex_mod (p : Nat) (ps : List Nat) :
    positionsResponse PositionsResult.allPositions = PositionsOut.all ∧
    positionsResponse (PositionsResult.positions ps) =
      PositionsOut.offsets (ps.map (fun q => hexEncodeToString (putUint32BE q))) ∧
    hexDecodeNat (hexEncodeToString (putUint32BE p)) = some (p % 4294967296) ∧
    (p < 4294967296 → hexDecodeNat (hexEncodeToString (putUint32BE p)) = some p) :=
  ⟨rfl, rfl, hex_roundtrip_mod p,
   fun hp => by rw [hex_roundtrip_mod p, Nat.mod_eq_of_lt hp]⟩

theorem claim_positions_hex_mod_witness :
    (305419896 : Nat) < 4294967296 ∧
    hexDecodeNat (hexEncodeToString (putUint32BE 305419896)) = some 305419896 :=
  ⟨by decide, (claim_positions_hex_mod 305419896 []).2.2.2 (by decide)⟩

/-- C9: the oldest file is untracked and its handle closed only after both
artifact removals succeeded (packet first, then index, then close, then
untrack); if either removal fails, the tracked set is unchanged, no handle
is closed, nothing is untracked, and the error is returned for the cycle. -/
theorem claim_delete_oldest_atomic (rmPkt rmIdx : String → Bool) (files : List String)
    (oldest : String) (t : List String) (h : getSortedFiles files = oldest :: t) :
    ((rmPkt oldest = false ∨ rmIdx oldest = false) →
      (deleteOldestThreadFile rmPkt rmIdx files).files = files ∧
      (deleteOldestThreadFile rmPkt rmIdx files).failed = true ∧
      (∀ n, Event.handleClosed n ∉ (deleteOldestThreadFile rmPkt rmIdx files).events ∧
        Event.untracked n ∉ (deleteOldestThreadFile rmPkt rmIdx files).events)) ∧
    (rmPkt oldest = true → rmIdx oldest = true →
      (deleteOldestThreadFile rmPkt rmIdx files).files = files.erase oldest ∧
      (deleteOldestThreadFile rmPkt rmIdx files).failed = false ∧
      (deleteOldestThreadFile rmPkt rmIdx files).events =
        [Event.removedPacket oldest, Event.removedIndex oldest,
         Event.handleClosed oldest, Event.untracked oldest]) := by
  have hcont : files.contains oldest = true := by
    simpa using getSortedFiles_head_mem h
  constructor
  · intro hfail
    rcases hfail with hf | hf
    · simp [deleteOldestThreadFile, h, hf]
    · cases hpk : rmPkt oldest <;> simp [deleteOldestThreadFile, h, hpk, hf]
  · intro h1 h2
    have ham : oldest ∈ files := getSortedFiles_head_mem h
    simp [deleteOldestThreadFile, h, h1, h2, untrackFile, hcont, ham]

theorem claim_delete_oldest_atomic_witness :
    getSortedFiles ["B", "A"] = "A" :: ["B"] ∧
    (deleteOldestThreadFile (fun _ => true) (fun _ => false) ["B", "A"]).files = ["B", "A"] ∧
    (deleteOldestThreadFile (fun _ => true) (fun _ => false) ["B", "A"]).failed = true :=
  ⟨by decide,
   ((claim_delete_oldest_atomic (fun _ => true) (fun _ => false) ["B", "A"] "A" ["B"]
      (by decide)).1 (Or.inr rfl)).1,
   ((claim_delete_oldest_atomic (fun _ => true) (fun _ => false) ["B", "A"] "A" ["B"]
      (by decide)).1 (Or.inr rfl)).2.1⟩

/-- C10: the candidate listing skips every directory entry and every entry
whose name begins with a dot, keeping the rest in order translated to
blockfile names, and a failure to read the index directory yields the empty
candidate list with no error surfaced to the caller. -/
theorem claim_list_files_skips (derive : String → String) :
    listPacketFilesOnDisk derive none = [] ∧
    (∀ entries, listPacketFilesOnDisk derive (some entries) =
      (entries.filter (fun e => !e.isDir && !(e.name.data.head? == some '.'))).map
        (fun e => derive e.name)) :=
  ⟨rfl, fun entries => listLoop_filter_map derive entries⟩

end Steno
